import Mathlib

/-!
Verification development for the `hessianfree` repository,
file `hessianfree/hessianrnn.py` (class `HessianRNN`, extending the external
base class `HessianFF` from the absent module `hessianff.py`).

The numeric arrays of the source are embedded over `ℚ`:

* a flat parameter vector and any 1-D array is a `Vec := List ℚ`;
* a 2-D numpy array indexed `[batch, unit]` is a `Batch := List Vec`
  (outer index = batch sample);
* a weight matrix is a `Mat := List Vec` (rows = source units, following the
  row-major reshape of a flat slice of the parameter vector);
* the per-layer, per-timestep activation store `activations[layer][batch, s, unit]`
  is materialized time-major as `List (List Batch)` (`hist[s][layer]` is the
  batch of activation vectors of `layer` at timestep `s`).

Members of the absent base class (`get_weights`, `J_dot`, `outer_sum`,
`init_weights`, the non-recurrent part of `compute_offsets`, the base
`error`, the nonlinearity and plant objects) are modelled from the spec;
each such definition carries a doc comment starting `Modelled from the spec:`.
All code of `hessianrnn.py` itself is translated directly.
-/

namespace HRNN

abbrev Vec := List ℚ
abbrev Batch := List Vec
abbrev Mat := List Vec

/-- Zero vector of length `n` (`np.zeros(n)`). -/
def zeroVec (n : ℕ) : Vec := List.replicate n 0

/-- Zero batch array of shape `[B, n]` (`np.zeros((B, n))`). -/
def zeroBatch (B n : ℕ) : Batch := List.replicate B (zeroVec n)

/-- Elementwise sum of two vectors (numpy `+` on equal-shaped 1-D arrays). -/
def vadd (a b : Vec) : Vec := List.zipWith (· + ·) a b

/-- Elementwise sum of two batches (numpy `+` on equal-shaped 2-D arrays). -/
def vaddB (a b : Batch) : Batch := List.zipWith vadd a b

/-- Scalar times vector (numpy scalar broadcasting). -/
def smulV (c : ℚ) (a : Vec) : Vec := a.map (fun x => c * x)

/-- Scalar times batch (numpy scalar broadcasting). -/
def smulB (c : ℚ) (a : Batch) : Batch := a.map (fun v => smulV c v)

/-- Elementwise product of two batches (numpy `*` on equal-shaped 2-D arrays). -/
def mulB (a b : Batch) : Batch := List.zipWith (fun x y => List.zipWith (· * ·) x y) a b

/-- Broadcast-add a bias row vector to every sample of a batch (numpy `+ b`). -/
def addBias (a : Batch) (b : Vec) : Batch := a.map (fun v => vadd v b)

/-- Dot product of two vectors. -/
def dotV (a b : Vec) : ℚ := (List.zipWith (· * ·) a b).sum

/-- Column `j` of a matrix. -/
def colOf (M : Mat) (j : ℕ) : Vec := M.map (fun row => row.getD j 0)

/-- Row vector times matrix, `np.dot(v, M)` for `v : (n,)`, `M : (n, m)`. -/
def vecMat (v : Vec) (M : Mat) : Vec :=
  (List.range (M.headD []).length).map (fun j => dotV v (colOf M j))

/-- Matrix times column vector, `np.dot(M, x)` for `M : (n, m)`, `x : (m,)`. -/
def matVec (M : Mat) (x : Vec) : Vec := M.map (fun row => dotV row x)

/-- Batch of row vectors times matrix, `np.dot(A, M)` for `A : (B, n)`. -/
def matMulB (a : Batch) (M : Mat) : Batch := a.map (fun v => vecMat v M)

/-- Batch of row vectors times a transposed matrix, `np.dot(A, M.T)`. -/
def matMulBT (a : Batch) (M : Mat) : Batch := a.map (fun v => matVec M v)

/-- Column sum of a batch, `np.sum(A, axis=0)` for `A : (B, n)`. -/
def colSum (a : Batch) (n : ℕ) : Vec := a.foldl vadd (zeroVec n)

/-- Flattened outer product of two vectors, row-major (`np.ravel(np.outer(x, y))`). -/
def outerFlat (x y : Vec) : Vec := (x.map (fun xi => y.map (fun yj => xi * yj))).flatten

/-- The base class helper `outer_sum(a, b) = np.ravel(np.einsum("ij,ik", a, b))`:
the sum over the batch of the flattened per-sample outer products.  Modelled from
the spec and from the reference lambda exercised against it in `test.py`
(`test_GPU`). -/
def outerSum (a b : Batch) : Vec :=
  (List.zipWith outerFlat a b).foldl vadd
    (zeroVec ((a.headD []).length * (b.headD []).length))

/-- Modelled from the spec: `J_dot(J, x)` of the absent base class applies the
per-sample Jacobian to a batch of vectors (forward application,
`transpose=False`). -/
def JdotB (Js : List Mat) (xs : Batch) : Batch := List.zipWith matVec Js xs

/-- Modelled from the spec: `J_dot(J, x, transpose=True)` of the absent base
class applies the transposed per-sample Jacobian to a batch of vectors. -/
def JdotTB (Js : List Mat) (xs : Batch) : Batch :=
  List.zipWith (fun x J => vecMat x J) xs Js

/-! ### Flat-buffer slice updates

`addSlice g off xs` is the numpy statement `g[off : off + len(xs)] += xs`;
`setSlice g off xs` is `g[off : off + len(xs)] = xs`.  Both leave the length
of `g` unchanged. -/

def addSlice : Vec → ℕ → Vec → Vec
  | [], _, _ => []
  | g, _, [] => g
  | a :: g, 0, x :: xs => (a + x) :: addSlice g 0 xs
  | a :: g, n + 1, xs => a :: addSlice g n xs

def setSlice : Vec → ℕ → Vec → Vec
  | [], _, _ => []
  | g, _, [] => g
  | _ :: g, 0, x :: xs => x :: setSlice g 0 xs
  | a :: g, n + 1, xs => a :: setSlice g n xs

/-! ### Network configuration and the offset table -/

/-- Modelled from the spec: a per-layer nonlinearity object of the absent base
class, exposing `activation` (embedded per sample; it is mapped over the batch)
and the `stateful` flag.  The derivative accessor is not needed here: the
gradient and curvature routines consume the cached derivative arrays, which the
embedding passes in explicitly. -/
structure Layer where
  actFn : Vec → Vec
  stateful : Bool

/-- Static configuration of a `HessianRNN`: the topology (`shape`, `conns`,
`back_conns`), the recurrence flags, the per-layer nonlinearities, the
structural damping coefficient, and the loss object's three components
(`loss[0]` value, `loss[1]` first derivative, `loss[2]` second derivative),
each applied per batch sample. -/
structure Net where
  shape : List ℕ
  conns : ℕ → List ℕ
  backConns : ℕ → List ℕ
  recLayers : List Bool
  layers : List Layer
  strucDamping : ℚ
  lossV : Vec → Vec → ℚ
  lossD : Vec → Vec → Vec
  lossD2 : Vec → Vec → Vec

def nLayers (net : Net) : ℕ := net.shape.length

def shapeAt (net : Net) (l : ℕ) : ℕ := net.shape.getD l 0

def recAt (net : Net) (l : ℕ) : Bool := net.recLayers.getD l false

def statefulAt (net : Net) (l : ℕ) : Bool :=
  (net.layers.getD l ⟨id, false⟩).stateful

def actApply (net : Net) (l : ℕ) (xs : Batch) : Batch :=
  xs.map (net.layers.getD l ⟨id, false⟩).actFn

/-- A connection-block specification: key `(source, dest)`, weight-block size,
bias-block size. -/
abbrev ConnSpec := (ℕ × ℕ) × ℕ × ℕ

/-- Assign consecutive offset triples `(start, W_end, b_end)` to a list of
connection-block specifications, starting at `start`. -/
def assignOffsets (start : ℕ) : List ConnSpec → List ((ℕ × ℕ) × ℕ × ℕ × ℕ)
  | [] => []
  | (k, w, b) :: rest =>
    (k, start, start + w, start + w + b) :: assignOffsets (start + w + b) rest

/-- Total parameter count of a list of connection-block specifications. -/
def sizeSum (specs : List ConnSpec) : ℕ :=
  (specs.map (fun e => e.2.1 + e.2.2)).sum

/-- The feedforward connection blocks, in topology order (source layer
ascending, destinations in `conns` order): `shape[pre]*shape[post]` weights
followed by `shape[post]` biases for each connection `(pre, post)`. -/
def ffSpecs (net : Net) : List ConnSpec :=
  ((List.range (nLayers net)).map (fun pre =>
    (net.conns pre).map (fun post =>
      ((pre, post), shapeAt net pre * shapeAt net post, shapeAt net post)))).flatten

/-- The recurrent self-connection blocks of `compute_offsets`
(`hessianrnn.py` lines 59-65): one `(l, l)` block per recurrent layer `l`,
in increasing layer order, of `shape[l]*shape[l]` weights followed by
`shape[l]` biases. -/
def recSpecs (net : Net) : List ConnSpec :=
  ((List.range (nLayers net)).filter (fun l => recAt net l)).map
    (fun l => ((l, l), shapeAt net l * shapeAt net l, shapeAt net l))

/-- Length of the parameter vector before the recurrent weights are appended. -/
def ffLen (net : Net) : ℕ := sizeSum (ffSpecs net)

/-- `compute_offsets` (`hessianrnn.py` lines 52-65): the base class first
assigns consecutive blocks for the feedforward connections starting at 0
(modelled from the spec, which fixes topology order and an exact partition),
then the recurrent blocks are appended starting at `wLen = len(self.W)`, the
parameter-vector length at call time (before the recurrent weights are
appended). -/
def offsetsOf (net : Net) (wLen : ℕ) : List ((ℕ × ℕ) × ℕ × ℕ × ℕ) :=
  assignOffsets 0 (ffSpecs net) ++ assignOffsets wLen (recSpecs net)

/-- The offset table actually used by the network: `compute_offsets` is called
by the base constructor while `len(self.W)` is still the feedforward length. -/
def offsets (net : Net) : List ((ℕ × ℕ) × ℕ × ℕ × ℕ) :=
  offsetsOf net (ffLen net)

/-- Dictionary lookup `self.offsets[key]` (`None` when the key is absent). -/
def findOff : List ((ℕ × ℕ) × ℕ × ℕ × ℕ) → ℕ × ℕ → Option (ℕ × ℕ × ℕ)
  | [], _ => none
  | (k, o) :: rest, key => if k = key then some o else findOff rest key

/-- Slice `params[a:b]`. -/
def sliceVec (p : Vec) (a b : ℕ) : Vec := (p.drop a).take (b - a)

/-- Slice `params[a : a + rows*cols]` reshaped row-major to `(rows, cols)`. -/
def sliceMat (p : Vec) (a rows cols : ℕ) : Mat :=
  (List.range rows).map (fun r => (p.drop (a + r * cols)).take cols)

/-- Modelled from the spec: `get_weights(params, (pre, post))` of the absent
base class returns the `(weight_matrix, bias_vector)` pair of views into the
flat parameter vector designated by the offset table, the weight block being
reshaped row-major to `(shape[pre], shape[post])`; `None` when the connection
has no entry. -/
def getW (net : Net) (params : Vec) (key : ℕ × ℕ) : Option (Mat × Vec) :=
  (findOff (offsets net) key).map (fun o =>
    (sliceMat params o.1 (shapeAt net key.1) (shapeAt net key.2),
     sliceVec params o.2.1 o.2.2))

/-! ### Construction (`HessianRNN.__init__`, lines 17-50) -/

/-- Modelled from the spec: `init_weights` of the absent base class allocates
one flat block per connection (weight block then bias block, with the sizes of
the given specification list).  The numeric initialization scheme is irrelevant
to every layout and construction claim, so entries are modelled as `0`. -/
def initWeights (specs : List ConnSpec) : Vec :=
  (specs.map (fun e => List.replicate (e.2.1 + e.2.2) (0 : ℚ))).flatten

/-- Result of a successful construction: the configuration together with the
allocated flat parameter vector `self.W`. -/
structure InitResult where
  net : Net
  W : Vec

/-- `HessianRNN.__init__` (lines 17-50): default the recurrence flags to
"all layers except the first and last", store them, raise
`ValueError("Must define recurrence for each layer")` when their number
differs from the layer count — before any weight allocation or offset
computation — and otherwise let the base constructor allocate the feedforward
weights and append the recurrent weight blocks (one `(shape[l], shape[l])`
matrix plus bias per recurrent layer) to `self.W`. -/
def initRNN (shape : List ℕ) (conns backConns : ℕ → List ℕ) (layers : List Layer)
    (strucDamping : ℚ) (lossV : Vec → Vec → ℚ) (lossD lossD2 : Vec → Vec → Vec)
    (recOpt : Option (List Bool)) : Except String InitResult :=
  let recL := recOpt.getD
    ([false] ++ List.replicate (shape.length - 2) true ++ [false])
  if recL.length ≠ shape.length then
    Except.error "Must define recurrence for each layer"
  else
    let net : Net :=
      { shape := shape, conns := conns, backConns := backConns,
        recLayers := recL, layers := layers, strucDamping := strucDamping,
        lossV := lossV, lossD := lossD, lossD2 := lossD2 }
    let ffW := initWeights (ffSpecs net)
    let W := if recL.any (fun b => b) then ffW ++ initWeights (recSpecs net) else ffW
    Except.ok ⟨net, W⟩

/-! ### Forward propagation (`HessianRNN.forward`, lines 67-144)

The numpy activation store `activations[i][batch, s, unit]` is zero-initialized
and written exactly once per `(layer, timestep)` cell, timestep-major.  It is
embedded time-major: the history is the list of completed timestep rows (one
`List Batch`, layer-indexed, per timestep), and the row under construction
starts from the zero row, so a read of a not-yet-written cell yields the same
zeros as the numpy store. -/

/-- Modelled from the spec: a plant (closed-loop environment) object.  Its
transition is embedded as a pure function of the network's previous output
batch; `shape` attributes supply the batch size and sequence length that
`forward` reads from its input, and `get_targets` is modelled as a function of
the record of inputs the plant produced during the run. -/
structure Plant where
  B : ℕ
  T : ℕ
  step : Batch → Batch
  targetsFn : List Batch → List (List Vec)

/-- The `input` argument of `forward`: a 3-D array `[batch, time, feature]`,
a 2-D array (single sample), or a callable plant. -/
inductive FwdInput where
  | arr3 : List (List Vec) → FwdInput
  | arr2 : List Vec → FwdInput
  | plantIn : Plant → FwdInput

/-- Lines 79-81: `input = input[None, :, :]` — a 2-D input becomes a 3-D array
with a leading batch axis of size 1. -/
def promote : FwdInput → FwdInput
  | .arr2 d => .arr3 [d]
  | x => x

/-- `input.shape[0]`, the batch size. -/
def batchOf : FwdInput → ℕ
  | .arr3 d => d.length
  | .arr2 _ => 1
  | .plantIn p => p.B

/-- `input.shape[1]`, the sequence length. -/
def seqLenOf : FwdInput → ℕ
  | .arr3 d => (d.headD []).length
  | .arr2 d => d.length
  | .plantIn p => p.T

/-- The zero-initialized activation row for one timestep:
`np.zeros((B, l))` for each layer size `l` (line 83-85). -/
def zeroRow (net : Net) (B : ℕ) : List Batch :=
  net.shape.map (fun m => zeroBatch B m)

/-- The external input to layer 0 at timestep `s` (lines 98-105): `input[:, s]`
for an array input, or the plant called with the previous timestep's output
`activations[-1][:, s - 1]` — at `s = 0` the negative index selects the final,
still all-zero slot, which `prev` (the previous row, defaulting to the zero
row) reproduces. -/
def extInput (net : Net) (inp : FwdInput) (prev : List Batch) (s : ℕ) : Batch :=
  match inp with
  | .arr3 d => d.map (fun sample => sample.getD s [])
  | .arr2 d => [d.getD s []]
  | .plantIn p => p.step (prev.getD (nLayers net - 1) [])

/-- The feedforward input to layer `i` at timestep `s` (lines 98-111): the
external input for layer 0, otherwise the zero vector accumulated with
`np.dot(activations[pre][:, s], W) + b` over the incoming connections, read
from the current row (cells of layers not yet reached this timestep still hold
their initial zeros). -/
def ffInputF (net : Net) (params : Vec) (inp : FwdInput) (prev cur : List Batch)
    (s i : ℕ) : Batch :=
  if i = 0 then extInput net inp prev s
  else
    (net.backConns i).foldl
      (fun acc pre =>
        let Wb := (getW net params (pre, i)).getD ([], [])
        vaddB acc (addBias (matMulB (cur.getD pre []) Wb.1) Wb.2))
      (zeroBatch (batchOf inp) (shapeAt net i))

/-- The recurrent input to layer `i` at timestep `s` (lines 113-122):
`np.dot(activations[i][:, s-1], W_rec)` for `s > 0`, the broadcast recurrent
bias at `s = 0`, and zero for non-recurrent layers. -/
def recInputF (net : Net) (params : Vec) (prev : List Batch) (B s i : ℕ) : Batch :=
  if recAt net i then
    if s > 0 then
      matMulB (prev.getD i []) ((getW net params (i, i)).getD ([], [])).1
    else
      List.replicate B ((getW net params (i, i)).getD ([], [])).2
  else zeroBatch B (shapeAt net i)

/-- One cell of the forward sweep (lines 98-126): apply the layer nonlinearity
to the sum of feedforward and recurrent input. -/
def layerCalc (net : Net) (params : Vec) (inp : FwdInput) (prev cur : List Batch)
    (s i : ℕ) : Batch :=
  actApply net i
    (vaddB (ffInputF net params inp prev cur s i)
           (recInputF net params prev (batchOf inp) s i))

/-- The row of timestep `s` after the layer loop has processed layers
`0, …, i-1` (inner loop of lines 96-126); layers `≥ i` still hold the initial
zeros. -/
def rowUpTo (net : Net) (params : Vec) (inp : FwdInput) (prev : List Batch)
    (s : ℕ) : ℕ → List Batch
  | 0 => zeroRow net (batchOf inp)
  | i + 1 =>
    let r := rowUpTo net params inp prev s i
    r.set i (layerCalc net params inp prev r s i)

/-- The completed activation row of timestep `s`. -/
def forwardRow (net : Net) (params : Vec) (inp : FwdInput) (prev : List Batch)
    (s : ℕ) : List Batch :=
  rowUpTo net params inp prev s (nLayers net)

/-- The history of completed timestep rows after `k` steps of the outer loop
(line 96). -/
def forwardHist (net : Net) (params : Vec) (inp : FwdInput) : ℕ → List (List Batch)
  | 0 => []
  | k + 1 =>
    let h := forwardHist net params inp k
    h ++ [forwardRow net params inp (h.getLastD (zeroRow net (batchOf inp))) k]

/-- `HessianRNN.forward` (activation computation; the optional derivative
cache of `deriv=True` is computed alongside without affecting the
activations).  Returns the activation store time-major:
`(forward …).getD s |>.getD i` is `activations[i][:, s]`. -/
def forward (net : Net) (inp : FwdInput) (params : Vec) : List (List Batch) :=
  let inp' := promote inp
  forwardHist net params inp' (seqLenOf inp')

/-- Accessor into the activation history: `activations[i][:, s]`. -/
def actsAt (hist : List (List Batch)) (s i : ℕ) : Batch :=
  (hist.getD s []).getD i []

/-- The previous row visible at timestep `s`: the zero store before the first
timestep, afterwards the completed row `s - 1`. -/
def prevRow (net : Net) (params : Vec) (inp : FwdInput) (s : ℕ) : List Batch :=
  (forwardHist net params inp s).getLastD (zeroRow net (batchOf inp))

/-! ### Error evaluation (`HessianRNN.error`, lines 146-158) -/

/-- The sequence of inputs a plant produces during a forward pass driven by it:
at each timestep the plant is called with the network's previous output
(the value `forward` feeds it). -/
def plantRecord (net : Net) (p : Plant) (params : Vec) : List Batch :=
  (List.range p.T).map (fun s =>
    p.step ((prevRow net params (.plantIn p) s).getD (nLayers net - 1) []))

/-- Modelled from the spec: `get_inputs` of the plant returns the inputs it
produced during the run as an array `[batch, time, feature]`; the time-major
record is transposed to batch-major. -/
def transposeTB (B : ℕ) (rows : List Batch) : List (List Vec) :=
  (List.range B).map (fun b => rows.map (fun row => row.getD b []))

/-- Modelled from the spec: the base class `error(W, inputs, targets)` runs a
forward pass and reduces the loss over the full activation/target sequence —
summed over timesteps and averaged over the batch. -/
def baseError (net : Net) (params : Vec) (inputs targets : List (List Vec)) : ℚ :=
  let hist := forward net (.arr3 inputs) params
  (((List.range (seqLenOf (.arr3 inputs))).map (fun s =>
      (((List.range inputs.length).map (fun b =>
        net.lossV ((actsAt hist s (nLayers net - 1)).getD b [])
          ((targets.getD b []).getD s []))).sum))).sum) / (inputs.length : ℚ)

/-- The `inputs` argument of `error`: an array or a callable plant. -/
inductive ErrInput where
  | arr : List (List Vec) → ErrInput
  | plantIn : Plant → ErrInput

/-- `HessianRNN.error` (lines 146-158): when `inputs` is callable, `assert
targets is None` (embedded as an error result), then run a forward pass driven
by the plant, read `targets`/`inputs` back from the plant, and delegate to the
base class error; otherwise delegate directly.  `netW` is `self.W`, used when
the `W` argument is `None`. -/
def errorRNN (net : Net) (netW : Vec) (Wopt : Option Vec) (inputs : ErrInput)
    (targets : Option (List (List Vec))) : Except String ℚ :=
  match inputs with
  | .plantIn p =>
    match targets with
    | some _ => Except.error "assert targets is None"
    | none =>
      let W := Wopt.getD netW
      let rec_ := plantRecord net p W
      Except.ok (baseError net W (transposeTB p.B rec_) (p.targetsFn rec_))
  | .arr d => Except.ok (baseError net (Wopt.getD netW) d (targets.getD []))

/-! ### The cached batch state consumed by `calc_grad` and `calc_G`

`calc_grad` and `calc_G` read `self.inputs`, `self.targets`,
`self.activations` and `self.d_activations`, all produced by the most recent
forward pass over the current batch.  The embedding passes this implicit
instance state explicitly. -/

/-- One cached derivative entry `d_activations[l][:, s]` for a single batch
sample.  For a stateless nonlinearity the entry is a single Jacobian (`whole`);
for a stateful one it carries the three blocks `[..., 0] = d_input`,
`[..., 1] = d_state`, `[..., 2] = d_output`.  The source selects by the
layer's `stateful` flag, never mixing the two views. -/
structure DEntry where
  whole : Mat
  dIn : Mat
  dSt : Mat
  dOut : Mat

/-- A stateless derivative entry (only the `whole` Jacobian is meaningful). -/
def DEntry.plain (J : Mat) : DEntry := ⟨J, [], [], []⟩

/-- The cached state of the network between `forward` and the
gradient/curvature computations. -/
structure NetState where
  B : ℕ
  T : ℕ
  acts : ℕ → ℕ → Batch
  dacts : ℕ → ℕ → List DEntry
  targets : ℕ → Batch
  W : Vec

/-! ### Gradient engine (`HessianRNN.calc_grad`, lines 160-234) -/

/-- Accumulator of the backpropagation sweep: the gradient buffer, the
per-layer `deltas`, and the per-layer `state_deltas` (meaningful only for
stateful layers; the source holds `None` elsewhere, embedded as `[]`). -/
structure GradAcc where
  grad : Vec
  deltas : List Batch
  stDeltas : List Batch

/-- The error signal entering layer `l` at timestep `s` before the recurrent
term, together with the gradient buffer after the interleaved feedforward
accumulation (lines 176-196): the loss derivative at the output layer,
otherwise the sum over outgoing connections of the downstream delta pulled
back through the connection weights, accumulating the feedforward
weight/bias gradient blocks along the way. -/
def errPhase (net : Net) (st : NetState) (deltas : List Batch) (g : Vec)
    (s l : ℕ) : Batch × Vec :=
  if l = nLayers net - 1 then
    (List.zipWith net.lossD (st.acts (nLayers net - 1) s) (st.targets s), g)
  else
    (net.conns l).foldl
      (fun acc post =>
        let Wb := (getW net st.W (l, post)).getD ([], [])
        let cErr := matMulBT (deltas.getD post []) Wb.1
        let off := (findOff (offsets net) (l, post)).getD (0, 0, 0)
        let g₁ := addSlice acc.2 off.1 (outerSum (st.acts l s) (deltas.getD post []))
        let g₂ := addSlice g₁ off.2.1 (colSum (deltas.getD post []) (shapeAt net post))
        (vaddB acc.1 cErr, g₂))
      (zeroBatch st.B (shapeAt net l), g)

/-- Lines 198-200: add the recurrent error `np.dot(deltas[l], W_rec.T)` for a
recurrent layer. -/
def recErr (net : Net) (st : NetState) (deltas : List Batch) (err : Batch)
    (l : ℕ) : Batch :=
  if recAt net l then
    vaddB err (matMulBT (deltas.getD l []) ((getW net st.W (l, l)).getD ([], [])).1)
  else err

/-- Lines 202-216: compute the layer's delta.  Stateless layers apply the
transposed Jacobian once; stateful layers chain the `d_output`, `d_input` and
`d_state` blocks through the accumulated state-delta.  Returns the new
`deltas[l]` and the updated state-delta list. -/
def deltaPhase (net : Net) (st : NetState) (err : Batch) (stDeltas : List Batch)
    (s l : ℕ) : Batch × List Batch :=
  if ¬ statefulAt net l then
    (JdotTB ((st.dacts l s).map DEntry.whole) err, stDeltas)
  else
    let dIn := (st.dacts l s).map DEntry.dIn
    let dSt := (st.dacts l s).map DEntry.dSt
    let dOut := (st.dacts l s).map DEntry.dOut
    let sd := vaddB (stDeltas.getD l []) (JdotTB dOut err)
    (JdotTB dIn sd, stDeltas.set l (JdotTB dSt sd))

/-- Lines 218-229 (and identically lines 361-371 of `calc_G`): the recurrent
gradient contribution of layer `l` at timestep `s` — for `s > 0` the batch
outer product of the previous-step activation with the layer's delta is added
into the recurrent weight block; at `s = 0` the column sum of the delta is
written into the recurrent bias block. -/
def recGradPhase (net : Net) (st : NetState) (g : Vec) (delta : Batch)
    (s l : ℕ) : Vec :=
  if recAt net l then
    let off := (findOff (offsets net) (l, l)).getD (0, 0, 0)
    if s > 0 then
      addSlice g off.1 (outerSum (st.acts l (s - 1)) delta)
    else
      setSlice g off.2.1 (colSum delta (shapeAt net l))
  else g

/-- One `(s, l)` iteration of the backpropagation sweep (lines 174-229). -/
def gradLayerStep (net : Net) (st : NetState) (s l : ℕ) (acc : GradAcc) : GradAcc :=
  let p := errPhase net st acc.deltas acc.grad s l
  let err := recErr net st acc.deltas p.1 l
  let d := deltaPhase net st err acc.stDeltas s l
  let g := recGradPhase net st p.2 d.1 s l
  { grad := g, deltas := acc.deltas.set l d.1, stDeltas := d.2 }

/-- The initial per-layer `state_deltas` (lines 166-169): zeros for stateful
layers, `None` (embedded `[]`) otherwise. -/
def initStDeltas (net : Net) (B : ℕ) : List Batch :=
  (List.range (nLayers net)).map (fun l =>
    if statefulAt net l then zeroBatch B (shapeAt net l) else [])

/-- The full backpropagation sweep (lines 163-229): timestep descending,
layer descending. -/
def gradSweep (net : Net) (st : NetState) : GradAcc :=
  (List.range st.T).reverse.foldl
    (fun acc s =>
      (List.range (nLayers net)).reverse.foldl
        (fun acc l => gradLayerStep net st s l acc) acc)
    { grad := List.replicate st.W.length 0,
      deltas := net.shape.map (fun m => zeroBatch st.B m),
      stDeltas := initStDeltas net st.B }

/-- `HessianRNN.calc_grad` (lines 160-234): the accumulated buffer divided by
the batch size. -/
def calc_grad (net : Net) (st : NetState) : Vec :=
  (gradSweep net st).grad.map (fun x => x / (st.B : ℚ))

/-! ### Gauss-Newton curvature-vector product (`HessianRNN.calc_G`, lines 236-377) -/

/-- State of the R-forward sweep: the accumulated per-timestep `R_inputs`
rows, the current `R_activations` and `R_states`, and the cached per-timestep
`R_outputs`. -/
structure RFwdAcc where
  Rins : List (List Batch)
  Racts : List Batch
  Rstates : List Batch
  Routs : List Batch

/-- `R_inputs[l][:, s]` of the R-forward sweep (lines 262-281): perturbed
feedforward input through the incoming connections (`v`-weights applied to the
cached activations plus existing weights applied to the upstream
`R_activations`), plus the recurrent contribution — the `v` recurrent bias at
`s = 0`, otherwise the `v` recurrent weights applied to the previous cached
activation plus the existing recurrent weights applied to the layer's own
previous `R_activation`. -/
def rinCalc (net : Net) (st : NetState) (v : Vec) (Racts : List Batch)
    (s l : ℕ) : Batch :=
  let base := zeroBatch st.B (shapeAt net l)
  let base :=
    if l > 0 then
      (net.backConns l).foldl
        (fun acc pre =>
          let vwb := (getW net v (pre, l)).getD ([], [])
          let Ww := ((getW net st.W (pre, l)).getD ([], [])).1
          vaddB (vaddB acc (addBias (matMulB (st.acts pre s) vwb.1) vwb.2))
            (matMulB (Racts.getD pre []) Ww))
        base
    else base
  if recAt net l then
    if s = 0 then
      vaddB base (List.replicate st.B ((getW net v (l, l)).getD ([], [])).2)
    else
      vaddB base
        (vaddB (matMulB (st.acts l (s - 1)) ((getW net v (l, l)).getD ([], [])).1)
               (matMulB (Racts.getD l []) ((getW net st.W (l, l)).getD ([], [])).1))
  else base

/-- One timestep of the R-forward sweep (lines 261-298), updating
`R_activations`/`R_states` layer by layer and recording the completed
`R_inputs` row and the output layer's `R_activation`. -/
def rfTimestep (net : Net) (st : NetState) (v : Vec) (s : ℕ) (acc : RFwdAcc) :
    RFwdAcc :=
  let res := (List.range (nLayers net)).foldl
    (fun (p : List Batch × List Batch × List Batch) l =>
      let rin := rinCalc net st v p.2.1 s l
      if ¬ statefulAt net l then
        (p.1.set l rin,
         p.2.1.set l (JdotB ((st.dacts l s).map DEntry.whole) rin),
         p.2.2)
      else
        let dIn := (st.dacts l s).map DEntry.dIn
        let dSt := (st.dacts l s).map DEntry.dSt
        let dOut := (st.dacts l s).map DEntry.dOut
        let rs := vaddB (JdotB dSt (p.2.2.getD l [])) (JdotB dIn rin)
        (p.1.set l rin, p.2.1.set l (JdotB dOut rs), p.2.2.set l rs))
    (net.shape.map (fun m => zeroBatch st.B m), acc.Racts, acc.Rstates)
  { Rins := acc.Rins ++ [res.1],
    Racts := res.2.1,
    Rstates := res.2.2,
    Routs := acc.Routs ++ [res.2.1.getD (nLayers net - 1) []] }

/-- The full R-forward sweep (lines 245-298).  `R_activations` starts as the
source's list of `None`s (embedded `[]`), `R_states` as zeros for stateful
layers. -/
def rForward (net : Net) (st : NetState) (v : Vec) : RFwdAcc :=
  (List.range st.T).foldl (fun acc s => rfTimestep net st v s acc)
    { Rins := [], Racts := List.replicate (nLayers net) [],
      Rstates := initStDeltas net st.B, Routs := [] }

/-- Accessor: `R_inputs[l][:, s]` of a completed R-forward sweep. -/
def rinAt (rf : RFwdAcc) (s l : ℕ) : Batch := (rf.Rins.getD s []).getD l []

/-- State of the R-backward sweep. -/
structure RBwdAcc where
  Gv : Vec
  Rdeltas : List Batch
  Rstates : List Batch

/-- The Gauss-Newton error signal entering layer `l` at timestep `s` (lines
309-328), with the interleaved feedforward accumulation into `Gv`: at the
output layer the cached `R_outputs` contracted elementwise with the loss
curvature `loss[2]`, otherwise the downstream `R_deltas` pulled back through
the connection weights. -/
def rErrPhase (net : Net) (st : NetState) (rf : RFwdAcc) (Rdeltas : List Batch)
    (g : Vec) (s l : ℕ) : Batch × Vec :=
  if l = nLayers net - 1 then
    (mulB (rf.Routs.getD s []) (List.zipWith net.lossD2 (st.acts l s) (st.targets s)), g)
  else
    (net.conns l).foldl
      (fun acc post =>
        let Ww := ((getW net st.W (l, post)).getD ([], [])).1
        let cErr := matMulBT (Rdeltas.getD post []) Ww
        let off := (findOff (offsets net) (l, post)).getD (0, 0, 0)
        let g₁ := addSlice acc.2 off.1 (outerSum (st.acts l s) (Rdeltas.getD post []))
        let g₂ := addSlice g₁ off.2.1 (colSum (Rdeltas.getD post []) (shapeAt net post))
        (vaddB acc.1 cErr, g₂))
      (zeroBatch st.B (shapeAt net l), g)

/-- Lines 334-352: the layer's `R_delta` before structural damping, the
updated `R_states`, and the `d_output` Jacobian batch in scope afterwards —
the whole cached entry for a stateless layer, the `[..., 2]` block for a
stateful one. -/
def RdeltaCore (net : Net) (st : NetState) (Rerr : Batch) (Rstates : List Batch)
    (s l : ℕ) : Batch × List Batch × List Mat :=
  if ¬ statefulAt net l then
    (JdotTB ((st.dacts l s).map DEntry.whole) Rerr, Rstates,
     (st.dacts l s).map DEntry.whole)
  else
    let dIn := (st.dacts l s).map DEntry.dIn
    let dSt := (st.dacts l s).map DEntry.dSt
    let dOut := (st.dacts l s).map DEntry.dOut
    let rs := vaddB (Rstates.getD l []) (JdotTB dOut Rerr)
    (JdotTB dIn rs, Rstates.set l (JdotTB dSt rs), dOut)

/-- Lines 354-359: the structural damping term
`J_dot(d_output, damping * struc_damping * R_inputs[l][:, s])` added to the
layer's `R_delta`. -/
def strucTerm (net : Net) (damping : ℚ) (dOut : List Mat) (rin : Batch) : Batch :=
  JdotB dOut (smulB (damping * net.strucDamping) rin)

/-- One `(s, l)` iteration of the R-backward sweep (lines 307-371). -/
def GLayerStep (net : Net) (st : NetState) (rf : RFwdAcc) (damping : ℚ)
    (s l : ℕ) (acc : RBwdAcc) : RBwdAcc :=
  let p := rErrPhase net st rf acc.Rdeltas acc.Gv s l
  let err :=
    if recAt net l then
      vaddB p.1 (matMulBT (acc.Rdeltas.getD l []) ((getW net st.W (l, l)).getD ([], [])).1)
    else p.1
  let c := RdeltaCore net st err acc.Rstates s l
  let d := vaddB c.1 (strucTerm net damping c.2.2 (rinAt rf s l))
  let g := recGradPhase net st p.2 d s l
  { Gv := g, Rdeltas := acc.Rdeltas.set l d, Rstates := c.2.1 }

/-- The full R-backward sweep (lines 300-371): timestep descending, layer
descending, starting from the zeroed result buffer. -/
def rBackward (net : Net) (st : NetState) (rf : RFwdAcc) (damping : ℚ)
    (Gv₀ : Vec) : RBwdAcc :=
  (List.range st.T).reverse.foldl
    (fun acc s =>
      (List.range (nLayers net)).reverse.foldl
        (fun acc l => GLayerStep net st rf damping s l acc) acc)
    { Gv := Gv₀,
      Rdeltas := net.shape.map (fun m => zeroBatch st.B m),
      Rstates := initStDeltas net st.B }

/-- `HessianRNN.calc_G` (lines 236-377): zero (or allocate) the result buffer,
run the R-forward and R-backward sweeps, divide by the batch size and add the
Tikhonov term `damping * v`. -/
def calc_G (net : Net) (st : NetState) (v : Vec) (damping : ℚ)
    (output : Option Vec) : Vec :=
  let Gv₀ := match output with
    | none => List.replicate st.W.length 0
    | some buf => buf.map (fun _ => (0 : ℚ))
  let rf := rForward net st v
  let bw := rBackward net st rf damping Gv₀
  vadd (bw.Gv.map (fun x => x / (st.B : ℚ))) (v.map (fun x => damping * x))

/-! ### Concrete example networks and cached states

Small fully concrete instances used to evaluate the definitions on explicit
inputs (counterexamples and witnesses).  All layers are linear
(`activation = id`, Jacobian `[[1]]`), so every quantity is exactly
computable over `ℚ`. -/

/-- A two-layer `[1, 1]` network, no recurrence, `struc_damping = 1`,
with the mean-squared-error loss derivatives
(`loss[1](a, t) = a - t`, `loss[2](a, t) = 1`). -/
def exNet1 : Net :=
  { shape := [1, 1]
    conns := fun l => if l = 0 then [1] else []
    backConns := fun l => if l = 1 then [0] else []
    recLayers := [false, false]
    layers := [⟨id, false⟩, ⟨id, false⟩]
    strucDamping := 1
    lossV := fun _ _ => 0
    lossD := fun a t => List.zipWith (fun x y => x - y) a t
    lossD2 := fun a _ => List.replicate a.length 1 }

/-- `exNet1` with `struc_damping = 0`. -/
def exNet0 : Net := { exNet1 with strucDamping := 0 }

/-- A cached batch state for `exNet1`/`exNet0`: batch size 1, one timestep,
all cached activations `[[1]]`, identity Jacobians, weights `W = [1, 0]`. -/
def exSt1 : NetState :=
  { B := 1, T := 1
    acts := fun _ _ => [[1]]
    dacts := fun _ _ => [DEntry.plain [[1]]]
    targets := fun _ => [[0]]
    W := [1, 0] }

/-- A two-layer `[1, 1]` network whose output layer is recurrent. -/
def recNet : Net := { exNet1 with recLayers := [false, true], strucDamping := 0 }

/-- Parameters for `recNet`: feedforward weight 1, bias 0, recurrent weight 2,
recurrent bias 0. -/
def recW : Vec := [1, 0, 2, 0]

/-- The cached state of `recNet` after `forward (.arr2 [[1], [2]]) recW`:
batch 1, two timesteps. -/
def recSt : NetState :=
  { B := 1, T := 2
    acts := fun l s =>
      if l = 0 then (if s = 0 then [[1]] else [[2]])
      else (if s = 0 then [[1]] else [[4]])
    dacts := fun _ _ => [DEntry.plain [[1]]]
    targets := fun _ => [[0]]
    W := recW }

/-- A concrete plant for `recNet`: batch 1, two timesteps, next input =
previous output + 10. -/
def exPlant : Plant :=
  { B := 1, T := 2
    step := fun b => b.map (fun v => v.map (fun x => x + 10))
    targetsFn := fun _ => [[[0], [0]]] }

/-- A `[1, 2, 1]` three-layer topology used to exercise construction. -/
def exConns3 : ℕ → List ℕ := fun l => if l = 0 then [1] else if l = 1 then [2] else []

def exBConns3 : ℕ → List ℕ := fun l => if l = 1 then [0] else if l = 2 then [1] else []

def exLayers3 : List Layer := [⟨id, false⟩, ⟨id, false⟩, ⟨id, false⟩]

/-- The construction result of the default-recurrence `[1, 2, 1]` network. -/
def exInit3 : Except String InitResult :=
  initRNN [1, 2, 1] exConns3 exBConns3 exLayers3 0 (fun _ _ => 0)
    (fun a t => List.zipWith (fun x y => x - y) a t)
    (fun a _ => List.replicate a.length 1) none

/-- The expected construction result of `exInit3`: the stored configuration
plus 13 zero-initialized parameters (4 + 3 feedforward weights/biases for
`(0,1)`, 2 + 1 for `(1,2)`, then 4 + 2 recurrent for `(1,1)`). -/
def exRes3 : InitResult :=
  { net :=
    { shape := [1, 2, 1]
      conns := exConns3
      backConns := exBConns3
      recLayers := [false, true, false]
      layers := exLayers3
      strucDamping := 0
      lossV := fun _ _ => 0
      lossD := fun a t => List.zipWith (fun x y => x - y) a t
      lossD2 := fun a _ => List.replicate a.length 1 }
    W := List.replicate 13 0 }

/-- A concrete mid-sweep gradient accumulator for `recNet`. -/
def exGradAcc : GradAcc :=
  { grad := [0, 0, 0, 0], deltas := [[[0]], [[0]]], stDeltas := [[], []] }

/-- A concrete mid-sweep R-backward accumulator for `recNet`. -/
def exRBwdAcc : RBwdAcc :=
  { Gv := [0, 0, 0, 0], Rdeltas := [[[0]], [[0]]], Rstates := [[], []] }

/-- The R-forward sweep of `recNet` at direction `v = [1, 0, 0, 0]`. -/
def exRF : RFwdAcc := rForward recNet recSt [1, 0, 0, 0]

/-! ## Supporting lemmas -/

/-! ### Slice-update lemmas -/

theorem length_addSlice (g : Vec) (off : ℕ) (xs : Vec) :
    (addSlice g off xs).length = g.length := by
  induction g generalizing off xs with
  | nil => simp [addSlice]
  | cons a g ih =>
    cases xs with
    | nil => simp [addSlice]
    | cons x xs =>
      cases off with
      | zero => simpa [addSlice] using ih 0 xs
      | succ n => simpa [addSlice] using ih n (x :: xs)

theorem length_setSlice (g : Vec) (off : ℕ) (xs : Vec) :
    (setSlice g off xs).length = g.length := by
  induction g generalizing off xs with
  | nil => simp [setSlice]
  | cons a g ih =>
    cases xs with
    | nil => simp [setSlice]
    | cons x xs =>
      cases off with
      | zero => simpa [setSlice] using ih 0 xs
      | succ n => simpa [setSlice] using ih n (x :: xs)

theorem getD_setSlice_lt (g : Vec) (off : ℕ) (xs : Vec) (i : ℕ) (h : i < off) :
    (setSlice g off xs).getD i 0 = g.getD i 0 := by
  induction g generalizing off xs i with
  | nil => simp [setSlice]
  | cons a g ih =>
    cases xs with
    | nil => simp [setSlice]
    | cons x xs =>
      cases off with
      | zero => omega
      | succ n =>
        cases i with
        | zero => simp [setSlice]
        | succ j => simpa [setSlice] using ih n (x :: xs) j (by omega)

theorem getD_addSlice_lt (g : Vec) (off : ℕ) (xs : Vec) (i : ℕ) (h : i < off) :
    (addSlice g off xs).getD i 0 = g.getD i 0 := by
  induction g generalizing off xs i with
  | nil => simp [addSlice]
  | cons a g ih =>
    cases xs with
    | nil => simp [addSlice]
    | cons x xs =>
      cases off with
      | zero => omega
      | succ n =>
        cases i with
        | zero => simp [addSlice]
        | succ j => simpa [addSlice] using ih n (x :: xs) j (by omega)

theorem getD_addSlice_in (g : Vec) (off : ℕ) (xs : Vec) (i : ℕ)
    (h : off + i < g.length) :
    (addSlice g off xs).getD (off + i) 0 = g.getD (off + i) 0 + xs.getD i 0 := by
  induction g generalizing off xs i with
  | nil => simp at h
  | cons a g ih =>
    cases xs with
    | nil => simp [addSlice]
    | cons x xs =>
      cases off with
      | zero =>
        cases i with
        | zero => simp [addSlice]
        | succ j =>
          simpa [addSlice] using ih 0 xs j (by simpa using h)
      | succ n =>
        have := ih n (x :: xs) i (by simp only [List.length_cons] at h; omega)
        simpa [addSlice, Nat.succ_add] using this

/-! ### Offset-partition lemmas -/

theorem assignOffsets_start_le (specs : List ConnSpec) (start : ℕ) :
    ∀ e ∈ assignOffsets start specs, start ≤ e.2.1 := by
  induction specs generalizing start with
  | nil => simp [assignOffsets]
  | cons hd tl ih =>
    obtain ⟨k, w, b⟩ := hd
    intro e he
    simp only [assignOffsets, List.mem_cons] at he
    rcases he with rfl | he
    · simp
    · have := ih (start + w + b) e he
      omega

theorem assignOffsets_pairwise (specs : List ConnSpec) (start : ℕ) :
    (assignOffsets start specs).Pairwise (fun e₁ e₂ => e₁.2.2.2 ≤ e₂.2.1) := by
  induction specs generalizing start with
  | nil => simp [assignOffsets]
  | cons hd tl ih =>
    obtain ⟨k, w, b⟩ := hd
    refine List.Pairwise.cons ?_ (ih (start + w + b))
    intro e he
    simpa using assignOffsets_start_le tl (start + w + b) e he

theorem assignOffsets_cover (specs : List ConnSpec) (start x : ℕ) :
    (start ≤ x ∧ x < start + sizeSum specs) ↔
      ∃ e ∈ assignOffsets start specs, e.2.1 ≤ x ∧ x < e.2.2.2 := by
  induction specs generalizing start with
  | nil => simp [assignOffsets, sizeSum]
  | cons hd tl ih =>
    obtain ⟨k, w, b⟩ := hd
    simp only [assignOffsets, sizeSum, List.map_cons, List.sum_cons,
      List.mem_cons] at *
    constructor
    · rintro ⟨h₁, h₂⟩
      by_cases hx : x < start + w + b
      · exact ⟨_, Or.inl rfl, by simpa using ⟨h₁, hx⟩⟩
      · have := (ih (start + w + b)).mp ⟨by omega, by omega⟩
        obtain ⟨e, he, hin⟩ := this
        exact ⟨e, Or.inr he, hin⟩
    · rintro ⟨e, he | he, hin⟩
      · subst he
        simp only at hin
        omega
      · have h₀ := assignOffsets_start_le tl (start + w + b) e he
        have := (ih (start + w + b)).mpr ⟨e, he, hin⟩
        omega

theorem assignOffsets_mem_structure (specs : List ConnSpec) (start : ℕ) :
    ∀ e ∈ assignOffsets start specs,
      ∃ kwb ∈ specs, e = (kwb.1, e.2.1, e.2.1 + kwb.2.1, e.2.1 + kwb.2.1 + kwb.2.2) := by
  induction specs generalizing start with
  | nil => simp [assignOffsets]
  | cons hd tl ih =>
    obtain ⟨k, w, b⟩ := hd
    intro e he
    simp only [assignOffsets, List.mem_cons] at he
    rcases he with rfl | he
    · exact ⟨(k, w, b), List.mem_cons_self _ _, rfl⟩
    · obtain ⟨kwb, hk, he'⟩ := ih (start + w + b) e he
      exact ⟨kwb, List.mem_cons_of_mem _ hk, he'⟩

theorem assignOffsets_append (l₁ l₂ : List ConnSpec) (start : ℕ) :
    assignOffsets start (l₁ ++ l₂) =
      assignOffsets start l₁ ++ assignOffsets (start + sizeSum l₁) l₂ := by
  induction l₁ generalizing start with
  | nil => simp [assignOffsets, sizeSum]
  | cons hd tl ih =>
    obtain ⟨k, w, b⟩ := hd
    have harith : start + w + b + sizeSum tl = start + sizeSum ((k, w, b) :: tl) := by
      simp only [sizeSum, List.map_cons, List.sum_cons]
      omega
    calc assignOffsets start (((k, w, b) :: tl) ++ l₂)
        = (k, start, start + w, start + w + b) ::
            assignOffsets (start + w + b) (tl ++ l₂) := rfl
      _ = (k, start, start + w, start + w + b) ::
            (assignOffsets (start + w + b) tl ++
             assignOffsets (start + w + b + sizeSum tl) l₂) := by rw [ih]
      _ = assignOffsets start ((k, w, b) :: tl) ++
            assignOffsets (start + sizeSum ((k, w, b) :: tl)) l₂ := by
              rw [harith]; rfl

theorem initWeights_length (specs : List ConnSpec) :
    (initWeights specs).length = sizeSum specs := by
  induction specs with
  | nil => simp [initWeights, sizeSum]
  | cons hd tl ih =>
    simp only [initWeights, sizeSum, List.map_cons, List.flatten_cons,
      List.length_append, List.length_replicate, List.sum_cons] at *
    omega

/-! ### Forward characterization lemmas -/

theorem forwardHist_length (net : Net) (params : Vec) (inp : FwdInput) (k : ℕ) :
    (forwardHist net params inp k).length = k := by
  induction k with
  | zero => rfl
  | succ k ih => simp [forwardHist, ih]

theorem forwardHist_getD (net : Net) (params : Vec) (inp : FwdInput) (k s : ℕ)
    (h : s < k) :
    (forwardHist net params inp k).getD s [] =
      forwardRow net params inp (prevRow net params inp s) s := by
  induction k with
  | zero => omega
  | succ k ih =>
    rcases Nat.lt_or_ge s k with hs | hs
    · rw [forwardHist]
      rw [List.getD_append _ _ _ _ (by rw [forwardHist_length]; exact hs)]
      exact ih hs
    · have hsk : s = k := by omega
      subst hsk
      rw [forwardHist]
      have hlen : (forwardHist net params inp s).length = s :=
        forwardHist_length net params inp s
      rw [List.getD_append_right _ _ _ _ (by omega)]
      simp [hlen, prevRow]

theorem rowUpTo_length (net : Net) (params : Vec) (inp : FwdInput)
    (prev : List Batch) (s m : ℕ) :
    (rowUpTo net params inp prev s m).length = nLayers net := by
  induction m with
  | zero => simp [rowUpTo, zeroRow, nLayers]
  | succ m ih => simp [rowUpTo, ih]

theorem getD_set_self {α : Type} (l : List α) (i : ℕ) (a d : α)
    (h : i < l.length) : (l.set i a).getD i d = a := by
  induction l generalizing i with
  | nil => simp at h
  | cons x xs ih =>
    cases i with
    | zero => simp
    | succ j => simpa using ih j (by simpa using h)

theorem getD_set_other {α : Type} (l : List α) (i j : ℕ) (a d : α)
    (h : i ≠ j) : (l.set i a).getD j d = l.getD j d := by
  induction l generalizing i j with
  | nil => simp
  | cons x xs ih =>
    cases i with
    | zero =>
      cases j with
      | zero => omega
      | succ k => simp
    | succ i' =>
      cases j with
      | zero => simp
      | succ k => simpa using ih i' k (by omega)

theorem rowUpTo_getD (net : Net) (params : Vec) (inp : FwdInput)
    (prev : List Batch) (s : ℕ) (i : ℕ) (hi : i < nLayers net) :
    ∀ m, i < m →
      (rowUpTo net params inp prev s m).getD i [] =
        layerCalc net params inp prev (rowUpTo net params inp prev s i) s i := by
  intro m
  induction m with
  | zero => omega
  | succ m ih =>
    intro him
    rcases Nat.lt_or_ge i m with hlt | hge
    · rw [rowUpTo]
      rw [getD_set_other _ _ _ _ _ (by omega)]
      exact ih hlt
    · have : i = m := by omega
      subst this
      rw [rowUpTo]
      exact getD_set_self _ _ _ _ (by rw [rowUpTo_length]; exact hi)

theorem forwardRow_getD (net : Net) (params : Vec) (inp : FwdInput)
    (prev : List Batch) (s i : ℕ) (hi : i < nLayers net) :
    (forwardRow net params inp prev s).getD i [] =
      layerCalc net params inp prev (rowUpTo net params inp prev s i) s i :=
  rowUpTo_getD net params inp prev s i hi (nLayers net) hi

theorem prevRow_eq_forwardRow (net : Net) (params : Vec) (inp : FwdInput)
    (s : ℕ) (hs : 0 < s) :
    prevRow net params inp s =
      forwardRow net params inp (prevRow net params inp (s - 1)) (s - 1) := by
  obtain ⟨t, rfl⟩ : ∃ t, s = t + 1 := ⟨s - 1, by omega⟩
  rw [prevRow, forwardHist]
  rw [List.getLastD_concat]
  rfl


/-! ### Generic invariant and rewriting lemmas -/

theorem foldl_inv {α β : Type} (P : β → Prop) (f : β → α → β) (l : List α)
    (b : β) (hb : P b) (hf : ∀ b a, P b → P (f b a)) : P (l.foldl f b) := by
  induction l generalizing b with
  | nil => exact hb
  | cons x xs ih => exact ih (f b x) (hf b x hb)

theorem getD_map_lt {α β : Type} (l : List α) (f : α → β) (j : ℕ)
    (h : j < l.length) (d : β) (d₀ : α) :
    (l.map f).getD j d = f (l.getD j d₀) := by
  induction l generalizing j with
  | nil => simp at h
  | cons x xs ih =>
    cases j with
    | zero => simp
    | succ k => simpa using ih k (by simpa using h)

theorem map_zero_eq_replicate (l : Vec) :
    (l.map (fun _ => (0 : ℚ))) = List.replicate l.length 0 := by
  induction l with
  | nil => rfl
  | cons x xs ih => simp [ih, List.replicate_succ]

theorem vadd_map_zero (a b : Vec) (h : a.length = b.length) :
    vadd a (b.map (fun x => 0 * x)) = a := by
  induction a generalizing b with
  | nil => rfl
  | cons x xs ih =>
    cases b with
    | nil => simp at h
    | cons y ys =>
      have h₂ := ih ys (by simpa using h)
      show (x + 0 * y) :: vadd xs (ys.map (fun x => 0 * x)) = x :: xs
      rw [zero_mul, add_zero, h₂]

/-! ### Buffer-length preservation through the sweeps -/

theorem rErrPhase_Gv_length (net : Net) (st : NetState) (rf : RFwdAcc)
    (Rd : List Batch) (g : Vec) (s l : ℕ) :
    (rErrPhase net st rf Rd g s l).2.length = g.length := by
  rw [rErrPhase]
  split
  · rfl
  · exact foldl_inv (fun (p : Batch × Vec) => p.2.length = g.length) _ _ _ rfl
      (fun p post hp => by simp only [length_addSlice]; exact hp)

theorem recGradPhase_length (net : Net) (st : NetState) (g : Vec)
    (delta : Batch) (s l : ℕ) :
    (recGradPhase net st g delta s l).length = g.length := by
  rw [recGradPhase]
  split
  · split
    · exact length_addSlice _ _ _
    · exact length_setSlice _ _ _
  · rfl

theorem GLayerStep_Gv_length (net : Net) (st : NetState) (rf : RFwdAcc)
    (damping : ℚ) (s l : ℕ) (acc : RBwdAcc) :
    (GLayerStep net st rf damping s l acc).Gv.length = acc.Gv.length := by
  rw [GLayerStep]
  simp only
  rw [recGradPhase_length, rErrPhase_Gv_length]

theorem rBackward_Gv_length (net : Net) (st : NetState) (rf : RFwdAcc)
    (damping : ℚ) (Gv₀ : Vec) :
    (rBackward net st rf damping Gv₀).Gv.length = Gv₀.length := by
  rw [rBackward]
  refine foldl_inv (fun (acc : RBwdAcc) => acc.Gv.length = Gv₀.length) _ _ _ rfl ?_
  intro acc s hacc
  refine foldl_inv (fun (acc : RBwdAcc) => acc.Gv.length = Gv₀.length) _ _ _ hacc ?_
  intro acc l hacc
  rw [GLayerStep_Gv_length]; exact hacc

/-! ### Damping enters the backward sweep only through structural damping -/

theorem GLayerStep_sd_zero (net : Net) (st : NetState) (rf : RFwdAcc)
    (damping : ℚ) (s l : ℕ) (acc : RBwdAcc) (hsd : net.strucDamping = 0) :
    GLayerStep net st rf damping s l acc = GLayerStep net st rf 0 s l acc := by
  simp only [GLayerStep, strucTerm, hsd, mul_zero]

theorem rBackward_sd_zero (net : Net) (st : NetState) (rf : RFwdAcc)
    (damping : ℚ) (Gv₀ : Vec) (hsd : net.strucDamping = 0) :
    rBackward net st rf damping Gv₀ = rBackward net st rf 0 Gv₀ := by
  rw [rBackward, rBackward]
  refine List.foldl_ext _ _ _ ?_
  intro acc s _
  refine List.foldl_ext _ _ _ ?_
  intro acc l _
  exact GLayerStep_sd_zero net st rf damping s l acc hsd

/-! ### Offset-table assembly lemmas -/

theorem sizeSum_append (l₁ l₂ : List ConnSpec) :
    sizeSum (l₁ ++ l₂) = sizeSum l₁ + sizeSum l₂ := by
  simp [sizeSum, List.map_append, List.sum_append]

theorem offsets_eq_assign (net : Net) :
    offsets net = assignOffsets 0 (ffSpecs net ++ recSpecs net) := by
  rw [offsets, offsetsOf, assignOffsets_append, ffLen, Nat.zero_add]

theorem getD_false_of_any_false (L : List Bool)
    (h : L.any (fun b => b) = false) (l : ℕ) : L.getD l false = false := by
  induction L generalizing l with
  | nil => simp
  | cons b bs ih =>
    simp only [List.any_cons, Bool.or_eq_false_iff] at h
    cases l with
    | zero => simpa using h.1
    | succ k => simpa using ih h.2 k

theorem recSpecs_nil (net : Net) (h : ∀ l, recAt net l = false) :
    recSpecs net = [] := by
  rw [recSpecs]
  rw [List.filter_eq_nil_iff.mpr (fun a _ => by simp [h a])]
  rfl

/-! ## Claim theorems -/

/-- C1 (counterexample): `calc_G(v, damping) = calc_G(v, 0) + damping·v` fails
on a network with nonzero `struc_damping`: on `exNet1` (struc_damping 1) with
`v = [1, 1]`, `damping = 1`, the left side is `[5, 5]` but the right side is
`[3, 3]` — the damping parameter also enters through the structural-damping
term of the backward sweep. -/
theorem C1_counterexample :
    ¬ (calc_G exNet1 exSt1 [1, 1] 1 none =
        vadd (calc_G exNet1 exSt1 [1, 1] 0 none)
          (([1, 1] : Vec).map (fun x => (1 : ℚ) * x))) := by
  with_unfolding_all decide

/-- C1 (amended): for every network with `struc_damping = 0` and every cached
state and direction `v` of matching length,
`calc_G(v, damping) = calc_G(v, 0) + damping·v` exactly — with structural
damping switched off, `damping` enters only through the final additive
Tikhonov term. -/
theorem C1_damping_linearity (net : Net) (st : NetState) (v : Vec) (damping : ℚ)
    (hsd : net.strucDamping = 0) (hlen : v.length = st.W.length) :
    calc_G net st v damping none =
      vadd (calc_G net st v 0 none) (v.map (fun x => damping * x)) := by
  have hcore : (((rBackward net st (rForward net st v) 0
      (List.replicate st.W.length 0)).Gv).map (fun x => x / (st.B : ℚ))).length
      = v.length := by
    rw [List.length_map, rBackward_Gv_length, List.length_replicate, hlen]
  show vadd (((rBackward net st (rForward net st v) damping
        (List.replicate st.W.length 0)).Gv).map (fun x => x / (st.B : ℚ)))
      (v.map (fun x => damping * x)) =
    vadd (vadd (((rBackward net st (rForward net st v) 0
        (List.replicate st.W.length 0)).Gv).map (fun x => x / (st.B : ℚ)))
      (v.map (fun x => 0 * x)))
      (v.map (fun x => damping * x))
  rw [rBackward_sd_zero _ _ _ _ _ hsd, vadd_map_zero _ _ hcore]

/-- C1 witness: the amended linearity evaluated on `exNet0`
(`struc_damping = 0`) at `v = [1, 1]`, `damping = 1`. -/
theorem C1_witness :
    exNet0.strucDamping = 0 ∧
      calc_G exNet0 exSt1 [1, 1] 1 none =
        vadd (calc_G exNet0 exSt1 [1, 1] 0 none)
          (([1, 1] : Vec).map (fun x => (1 : ℚ) * x)) :=
  ⟨rfl, C1_damping_linearity exNet0 exSt1 [1, 1] 1 rfl (by decide)⟩

/-- C6 (counterexample): a 2-D input is *not* treated as `[batch, 1, feature]`:
on the recurrent network `recNet` the activations computed from the 2-D input
`[[1], [2]]` differ from those of the claimed single-timestep batch
`[[[1]], [[2]]]`. -/
theorem C6_counterexample :
    forward recNet (.arr2 [[1], [2]]) recW ≠
      forward recNet (.arr3 (([[1], [2]] : List Vec).map (fun r => [r]))) recW := by
  with_unfolding_all decide

/-- C6 (amended): a 2-D input of shape `[time, feature]` is promoted to the
single-*sample* batch `[1, time, feature]` (`input[None, :, :]`), and the
computed activations equal those of that explicitly three-dimensional
input. -/
theorem C6_promotion (net : Net) (d : List Vec) (params : Vec) :
    forward net (.arr2 d) params = forward net (.arr3 [d]) params := rfl

/-- C7: supplying recurrence flags whose number differs from the layer count
makes construction fail with `ValueError("Must define recurrence for each
layer")` before any weight allocation (the embedded constructor returns the
error without producing a parameter vector); matching flags are stored exactly
as given (never truncated or padded); and the default flags (all layers
recurrent except the first and last) make construction succeed whenever the
topology has at least two layers. -/
theorem C7_construction :
    (∀ (shape : List ℕ) (conns bc : ℕ → List ℕ) (layers : List Layer) (sd : ℚ)
        (lV : Vec → Vec → ℚ) (lD lD2 : Vec → Vec → Vec) (rec_ : List Bool),
        rec_.length ≠ shape.length →
        initRNN shape conns bc layers sd lV lD lD2 (some rec_) =
          Except.error "Must define recurrence for each layer") ∧
    (∀ (shape : List ℕ) (conns bc : ℕ → List ℕ) (layers : List Layer) (sd : ℚ)
        (lV : Vec → Vec → ℚ) (lD lD2 : Vec → Vec → Vec) (rec_ : List Bool),
        rec_.length = shape.length →
        ∃ res, initRNN shape conns bc layers sd lV lD lD2 (some rec_) =
            Except.ok res ∧ res.net.recLayers = rec_) ∧
    (∀ (shape : List ℕ) (conns bc : ℕ → List ℕ) (layers : List Layer) (sd : ℚ)
        (lV : Vec → Vec → ℚ) (lD lD2 : Vec → Vec → Vec),
        2 ≤ shape.length →
        ∃ res, initRNN shape conns bc layers sd lV lD lD2 none =
            Except.ok res ∧
          res.net.recLayers =
            [false] ++ List.replicate (shape.length - 2) true ++ [false]) := by
  refine ⟨?_, ?_, ?_⟩
  · intro shape conns bc layers sd lV lD lD2 rec_ h
    rw [initRNN]
    simp only [Option.getD_some]
    rw [if_pos h]
  · intro shape conns bc layers sd lV lD lD2 rec_ h
    rw [initRNN]
    simp only [Option.getD_some]
    rw [if_neg (fun hc => hc h)]
    exact ⟨_, rfl, rfl⟩
  · intro shape conns bc layers sd lV lD lD2 h
    rw [initRNN]
    simp only [Option.getD_none]
    have hlen : ([false] ++ List.replicate (shape.length - 2) true ++
        [false]).length = shape.length := by
      simp [List.length_append, List.length_replicate]
      omega
    rw [if_neg (fun hc => hc hlen)]
    exact ⟨_, rfl, rfl⟩

/-- C7 witness: two layers with a single recurrence flag is rejected. -/
theorem C7_witness :
    ([true] : List Bool).length ≠ ([1, 2] : List ℕ).length ∧
      initRNN [1, 2] exConns3 exBConns3 exLayers3 0 (fun _ _ => 0)
        (fun a t => List.zipWith (fun x y => x - y) a t)
        (fun a _ => List.replicate a.length 1) (some [true]) =
        Except.error "Must define recurrence for each layer" :=
  ⟨by decide,
   C7_construction.1 [1, 2] exConns3 exBConns3 exLayers3 0 (fun _ _ => 0)
     (fun a t => List.zipWith (fun x y => x - y) a t)
     (fun a _ => List.replicate a.length 1) [true] (by decide)⟩

/-- C8: with a callable plant as `inputs`, a non-`None` `targets` argument is
rejected (the `assert` fails) before any forward computation, and with
`targets = None` the error is the base-class loss over the inputs the plant
produced during the forward pass (`get_inputs`) and the targets it reports
afterwards (`get_targets`), using `self.W` when the `W` argument is `None`. -/
theorem C8_plant_error (net : Net) (netW : Vec) (Wopt : Option Vec) (p : Plant)
    (t : List (List Vec)) :
    errorRNN net netW Wopt (.plantIn p) (some t) =
        Except.error "assert targets is None" ∧
      errorRNN net netW Wopt (.plantIn p) none =
        Except.ok (baseError net (Wopt.getD netW)
          (transposeTB p.B (plantRecord net p (Wopt.getD netW)))
          (p.targetsFn (plantRecord net p (Wopt.getD netW)))) :=
  ⟨rfl, rfl⟩

/-- C10: a preallocated output buffer of the parameter-vector length is zeroed
before accumulation, so `calc_G` with a buffer returns exactly the same value
as `calc_G` without one, regardless of the buffer's prior contents. -/
theorem C10_output_buffer (net : Net) (st : NetState) (v : Vec) (damping : ℚ)
    (buf : Vec) (hlen : buf.length = st.W.length) :
    calc_G net st v damping (some buf) = calc_G net st v damping none := by
  have h : buf.map (fun _ => (0 : ℚ)) = List.replicate st.W.length 0 := by
    rw [map_zero_eq_replicate, hlen]
  show vadd (((rBackward net st (rForward net st v) damping
        (buf.map (fun _ => (0 : ℚ)))).Gv).map (fun x => x / (st.B : ℚ)))
      (v.map (fun x => damping * x)) =
    vadd (((rBackward net st (rForward net st v) damping
        (List.replicate st.W.length 0)).Gv).map (fun x => x / (st.B : ℚ)))
      (v.map (fun x => damping * x))
  rw [h]

/-- C10 witness: a dirty buffer `[5, 7]` gives the same curvature product as
no buffer on `exNet1`. -/
theorem C10_witness :
    ([5, 7] : Vec).length = exSt1.W.length ∧
      calc_G exNet1 exSt1 [1, 1] 1 (some [5, 7]) =
        calc_G exNet1 exSt1 [1, 1] 1 none :=
  ⟨rfl, C10_output_buffer exNet1 exSt1 [1, 1] 1 [5, 7] rfl⟩

/-- C2: after a successful construction, the offset table is an exact
partition of the final parameter vector: its ranges are consecutive (hence
pairwise disjoint, in table order), their union covers exactly
`[0, len(W))`, the table is the feedforward blocks followed by the recurrent
blocks starting at the pre-recurrent parameter-vector length, and every
recurrent entry is a `(l, l)` key of a recurrent layer spanning
`shape[l]*shape[l]` weight slots followed by `shape[l]` bias slots, in
increasing layer order. -/
theorem offsets_partition_core (net : Net) (W : Vec)
    (hW : W.length = sizeSum (ffSpecs net) + sizeSum (recSpecs net)) :
    (offsets net).Pairwise (fun e₁ e₂ => e₁.2.2.2 ≤ e₂.2.1) ∧
    (∀ x, x < W.length ↔
      ∃ e ∈ offsets net, e.2.1 ≤ x ∧ x < e.2.2.2) ∧
    offsets net =
      assignOffsets 0 (ffSpecs net) ++
        assignOffsets (initWeights (ffSpecs net)).length (recSpecs net) ∧
    (∀ e ∈ assignOffsets (initWeights (ffSpecs net)).length (recSpecs net),
      e.1.1 = e.1.2 ∧ recAt net e.1.1 = true ∧
      e.2.2.1 = e.2.1 + shapeAt net e.1.1 * shapeAt net e.1.1 ∧
      e.2.2.2 = e.2.2.1 + shapeAt net e.1.1) := by
  refine ⟨?_, ?_, ?_, ?_⟩
  · rw [offsets_eq_assign]
    exact assignOffsets_pairwise _ 0
  · intro x
    rw [hW, offsets_eq_assign]
    have hcov := assignOffsets_cover (ffSpecs net ++ recSpecs net) 0 x
    rw [sizeSum_append] at hcov
    constructor
    · intro hx
      exact hcov.mp ⟨Nat.zero_le x, by omega⟩
    · intro hx
      have h₂ := hcov.mpr hx
      omega
  · rw [offsets, offsetsOf, ffLen, initWeights_length]
  · intro e he
    obtain ⟨kwb, hk, hstruct⟩ :=
      assignOffsets_mem_structure (recSpecs net) _ e he
    rw [recSpecs] at hk
    obtain ⟨l, hl, hkwb⟩ := List.mem_map.mp hk
    subst hkwb
    rw [hstruct]
    exact ⟨rfl, (List.mem_filter.mp hl).2, rfl, rfl⟩

/-- C2: after a successful construction, the offset table is an exact
partition of the final parameter vector: its ranges are consecutive (hence
pairwise disjoint, in table order), their union covers exactly
`[0, len(W))`, the table is the feedforward blocks followed by the recurrent
blocks starting at the pre-recurrent parameter-vector length, and every
recurrent entry is a `(l, l)` key of a recurrent layer spanning
`shape[l]*shape[l]` weight slots followed by `shape[l]` bias slots, in
increasing layer order. -/
theorem C2_offset_partition (shape : List ℕ) (conns bc : ℕ → List ℕ)
    (layers : List Layer) (sd : ℚ) (lV : Vec → Vec → ℚ) (lD lD2 : Vec → Vec → Vec)
    (recOpt : Option (List Bool)) (res : InitResult)
    (hinit : initRNN shape conns bc layers sd lV lD lD2 recOpt = Except.ok res) :
    (offsets res.net).Pairwise (fun e₁ e₂ => e₁.2.2.2 ≤ e₂.2.1) ∧
    (∀ x, x < res.W.length ↔
      ∃ e ∈ offsets res.net, e.2.1 ≤ x ∧ x < e.2.2.2) ∧
    offsets res.net =
      assignOffsets 0 (ffSpecs res.net) ++
        assignOffsets (initWeights (ffSpecs res.net)).length (recSpecs res.net) ∧
    (∀ e ∈ assignOffsets (initWeights (ffSpecs res.net)).length (recSpecs res.net),
      e.1.1 = e.1.2 ∧ recAt res.net e.1.1 = true ∧
      e.2.2.1 = e.2.1 + shapeAt res.net e.1.1 * shapeAt res.net e.1.1 ∧
      e.2.2.2 = e.2.2.1 + shapeAt res.net e.1.1) := by
  refine offsets_partition_core res.net res.W ?_
  simp only [initRNN] at hinit
  split at hinit
  · exact absurd hinit (by simp)
  · rw [Except.ok.injEq] at hinit
    rw [← hinit]
    dsimp only
    split
    · rw [List.length_append, initWeights_length, initWeights_length]
    · next hany =>
      rw [recSpecs_nil _
        (fun l => getD_false_of_any_false _ (by revert hany; simp) l)]
      rw [initWeights_length]
      rfl

/-- C2 witness: the `[1, 2, 1]` default-recurrence network; its offset table
is consecutive and disjoint. -/
theorem C2_witness :
    exInit3 = Except.ok exRes3 ∧
      (offsets exRes3.net).Pairwise (fun e₁ e₂ => e₁.2.2.2 ≤ e₂.2.1) :=
  ⟨by with_unfolding_all rfl,
   (C2_offset_partition [1, 2, 1] exConns3 exBConns3 exLayers3 0 (fun _ _ => 0)
     (fun a t => List.zipWith (fun x y => x - y) a t)
     (fun a _ => List.replicate a.length 1) none exRes3
     (by with_unfolding_all rfl)).1⟩

/-- C3: in `forward`, the activation of layer `i` at timestep `s` is the
nonlinearity applied to the feedforward input plus a recurrent contribution
that is exactly the recurrent bias vector (broadcast over the batch) when
`s = 0`, exactly the previous-timestep activation of the same layer times the
recurrent weight matrix (with no recurrent bias) when `s > 0`, and exactly
zero for non-recurrent layers. -/
theorem C3_recurrent_contribution (net : Net) (params : Vec) (inp : FwdInput)
    (i s : ℕ) (hi : i < nLayers net) (hs : s < seqLenOf (promote inp)) :
    actsAt (forward net inp params) s i =
      actApply net i
        (vaddB
          (ffInputF net params (promote inp)
            (prevRow net params (promote inp) s)
            (rowUpTo net params (promote inp)
              (prevRow net params (promote inp) s) s i) s i)
          (if recAt net i then
            (if s > 0 then
              matMulB (actsAt (forward net inp params) (s - 1) i)
                ((getW net params (i, i)).getD ([], [])).1
            else
              List.replicate (batchOf (promote inp))
                ((getW net params (i, i)).getD ([], [])).2)
          else zeroBatch (batchOf (promote inp)) (shapeAt net i))) := by
  have hfwd : forward net inp params =
      forwardHist net params (promote inp) (seqLenOf (promote inp)) := rfl
  rw [hfwd, actsAt, forwardHist_getD _ _ _ _ _ hs,
    forwardRow_getD _ _ _ _ _ _ hi, layerCalc]
  refine congrArg (actApply net i) ?_
  refine congrArg (vaddB _) ?_
  rw [recInputF]
  by_cases hrec : recAt net i
  · rw [if_pos hrec, if_pos hrec]
    by_cases hs0 : s > 0
    · rw [if_pos hs0, if_pos hs0]
      have hprev : (prevRow net params (promote inp) s).getD i [] =
          actsAt (forwardHist net params (promote inp)
            (seqLenOf (promote inp))) (s - 1) i := by
        rw [prevRow_eq_forwardRow _ _ _ _ hs0, actsAt,
          forwardHist_getD _ _ _ _ _ (by omega)]
      rw [hprev]
    · rw [if_neg hs0, if_neg hs0]
  · rw [if_neg hrec, if_neg hrec]

/-- C3 witness: `recNet` at layer 1, timestep 1, where the recurrent
contribution `activation(1, 0) · W_rec = 1 · 2` yields activation
`2 + 2 = 4`. -/
theorem C3_witness :
    (1 < nLayers recNet ∧
      1 < seqLenOf (promote (.arr2 [[1], [2]]))) ∧
      actsAt (forward recNet (.arr2 [[1], [2]]) recW) 1 1 = [[4]] :=
  ⟨⟨by decide, by with_unfolding_all decide⟩,
   (C3_recurrent_contribution recNet recW (.arr2 [[1], [2]]) 1 1 (by decide)
     (by with_unfolding_all decide)).trans (by with_unfolding_all decide)⟩

/-- C9: when `forward` is driven by a callable plant, the first plant
invocation (layer 0, timestep 0) receives the all-zero batch as the network's
previous output — `activations[-1][:, s-1]` with `s = 0` reads the final,
still zero-initialized timestep slot of the output layer. -/
theorem C9_plant_first_input (net : Net) (p : Plant) (params : Vec)
    (hn : 1 ≤ nLayers net) (hT : 1 ≤ p.T) :
    actsAt (forward net (.plantIn p) params) 0 0 =
      actApply net 0
        (vaddB (p.step (zeroBatch p.B (shapeAt net (nLayers net - 1))))
               (recInputF net params (zeroRow net p.B) p.B 0 0)) := by
  have hfwd : forward net (.plantIn p) params =
      forwardHist net params (.plantIn p) p.T := rfl
  rw [hfwd, actsAt, forwardHist_getD _ _ _ _ _ hT,
    forwardRow_getD _ _ _ _ _ _ (by omega), layerCalc]
  have hprev : prevRow net params (.plantIn p) 0 =
      zeroRow net (batchOf (.plantIn p)) := rfl
  rw [hprev]
  refine congrArg (actApply net 0) ?_
  refine congrArg (fun ff => vaddB ff
    (recInputF net params (zeroRow net p.B) p.B 0 0)) ?_
  rw [ffInputF, if_pos rfl, extInput]
  refine congrArg p.step ?_
  rw [zeroRow]
  rw [getD_map_lt net.shape _ (nLayers net - 1)
    (by have hlen : nLayers net = net.shape.length := rfl; omega) [] 0]
  rfl

/-- C9 witness: `exPlant` (next input = previous output + 10) on `recNet`:
the first input is `step(zeros) = [[10]]`, so activation `(0, 0) = [[10]]`. -/
theorem C9_witness :
    (1 ≤ nLayers recNet ∧ 1 ≤ exPlant.T) ∧
      actsAt (forward recNet (.plantIn exPlant) recW) 0 0 = [[10]] :=
  ⟨⟨by decide, by decide⟩,
   (C9_plant_first_input recNet exPlant recW (by decide) (by decide)).trans
     (by with_unfolding_all decide)⟩

/-- C4: in one `(s, l)` step of `calc_grad`'s sweep, for a recurrent layer `l`
with offsets `(a, W_end, b_end)`: the layer's stored delta is the one computed
by the delta phase from the accumulated error; at `s > 0` the outer product of
the activation at `s-1` with that delta is added into the recurrent weight
block `[a, W_end)` (entrywise, on top of whatever the feedforward phase left
there) and at `s = 0` the column sum of the delta is written into the
recurrent bias block starting at `W_end`, leaving every entry below `W_end` —
in particular the whole recurrent weight block — unchanged; and the returned
gradient is the accumulated buffer divided by the batch size. -/
theorem C4_recurrent_gradient (net : Net) (st : NetState) (s l : ℕ)
    (acc : GradAcc) (a wE bE : ℕ)
    (hrec : recAt net l = true)
    (hoff : findOff (offsets net) (l, l) = some (a, wE, bE))
    (hdl : l < acc.deltas.length) :
    (gradLayerStep net st s l acc).deltas.getD l [] =
      (deltaPhase net st
        (recErr net st acc.deltas (errPhase net st acc.deltas acc.grad s l).1 l)
        acc.stDeltas s l).1 ∧
    (s > 0 →
      (gradLayerStep net st s l acc).grad =
        addSlice (errPhase net st acc.deltas acc.grad s l).2 a
          (outerSum (st.acts l (s - 1))
            ((gradLayerStep net st s l acc).deltas.getD l []))) ∧
    (s = 0 →
      (gradLayerStep net st s l acc).grad =
        setSlice (errPhase net st acc.deltas acc.grad s l).2 wE
          (colSum ((gradLayerStep net st s l acc).deltas.getD l [])
            (shapeAt net l))) ∧
    (s = 0 → ∀ j, j < wE →
      (gradLayerStep net st s l acc).grad.getD j 0 =
        (errPhase net st acc.deltas acc.grad s l).2.getD j 0) ∧
    (s > 0 → ∀ j, a + j < (errPhase net st acc.deltas acc.grad s l).2.length →
      (gradLayerStep net st s l acc).grad.getD (a + j) 0 =
        (errPhase net st acc.deltas acc.grad s l).2.getD (a + j) 0 +
          (outerSum (st.acts l (s - 1))
            ((gradLayerStep net st s l acc).deltas.getD l [])).getD j 0) ∧
    calc_grad net st = (gradSweep net st).grad.map (fun x => x / (st.B : ℚ)) := by
  have hδ : (gradLayerStep net st s l acc).deltas.getD l [] =
      (deltaPhase net st
        (recErr net st acc.deltas (errPhase net st acc.deltas acc.grad s l).1 l)
        acc.stDeltas s l).1 := by
    rw [gradLayerStep]
    exact getD_set_self _ _ _ _ hdl
  have hg : (gradLayerStep net st s l acc).grad =
      recGradPhase net st (errPhase net st acc.deltas acc.grad s l).2
        (deltaPhase net st
          (recErr net st acc.deltas (errPhase net st acc.deltas acc.grad s l).1 l)
          acc.stDeltas s l).1 s l := rfl
  have hgrw : ∀ hs : s > 0,
      (gradLayerStep net st s l acc).grad =
        addSlice (errPhase net st acc.deltas acc.grad s l).2 a
          (outerSum (st.acts l (s - 1))
            ((gradLayerStep net st s l acc).deltas.getD l [])) := by
    intro hs
    rw [hδ, hg, recGradPhase, if_pos hrec, hoff]
    simp only [Option.getD_some]
    rw [if_pos hs]
  have hgrw0 : s = 0 →
      (gradLayerStep net st s l acc).grad =
        setSlice (errPhase net st acc.deltas acc.grad s l).2 wE
          (colSum ((gradLayerStep net st s l acc).deltas.getD l [])
            (shapeAt net l)) := by
    intro hs
    rw [hδ, hg, recGradPhase, if_pos hrec, hoff]
    simp only [Option.getD_some]
    rw [if_neg (by omega)]
  refine ⟨hδ, hgrw, hgrw0, ?_, ?_, rfl⟩
  · intro hs j hj
    rw [hgrw0 hs]
    exact getD_setSlice_lt _ _ _ _ hj
  · intro hs j hj
    rw [hgrw hs]
    exact getD_addSlice_in _ _ _ _ hj

/-- C5: in one `(s, l)` step of `calc_G`'s backward sweep, after the layer's
pre-damping `R_delta` is computed, the structural-damping term
`J_dot(d_output, damping · struc_damping · R_inputs[l][:, s])` is added to it;
and the Jacobian batch used there is exactly the `d_output` block
(`d_activations[l][:, s, ..., 2]`) for a stateful layer — never `d_input` or
`d_state` — and the whole cached Jacobian for a stateless one. -/
theorem C5_structural_damping (net : Net) (st : NetState) (rf : RFwdAcc)
    (damping : ℚ) (s l : ℕ) (acc : RBwdAcc)
    (hdl : l < acc.Rdeltas.length) :
    ((GLayerStep net st rf damping s l acc).Rdeltas.getD l [] =
      vaddB
        (RdeltaCore net st
          (if recAt net l then
            vaddB (rErrPhase net st rf acc.Rdeltas acc.Gv s l).1
              (matMulBT (acc.Rdeltas.getD l [])
                ((getW net st.W (l, l)).getD ([], [])).1)
          else (rErrPhase net st rf acc.Rdeltas acc.Gv s l).1)
          acc.Rstates s l).1
        (JdotB
          (RdeltaCore net st
            (if recAt net l then
              vaddB (rErrPhase net st rf acc.Rdeltas acc.Gv s l).1
                (matMulBT (acc.Rdeltas.getD l [])
                  ((getW net st.W (l, l)).getD ([], [])).1)
            else (rErrPhase net st rf acc.Rdeltas acc.Gv s l).1)
            acc.Rstates s l).2.2
          (smulB (damping * net.strucDamping) (rinAt rf s l)))) ∧
    (∀ err : Batch,
      (RdeltaCore net st err acc.Rstates s l).2.2 =
        (if statefulAt net l then (st.dacts l s).map DEntry.dOut
         else (st.dacts l s).map DEntry.whole)) := by
  constructor
  · rw [GLayerStep]
    simp only
    rw [getD_set_self _ _ _ _ hdl]
    rfl
  · intro err
    rw [RdeltaCore]
    by_cases hstf : statefulAt net l
    · simp [hstf]
    · simp [hstf]

/-- C4 witness: the `(s, l) = (0, 1)` step on `recNet` with a fresh
accumulator; the stored delta is the loss derivative `[[1]]`. -/
theorem C4_witness :
    (recAt recNet 1 = true ∧ findOff (offsets recNet) (1, 1) = some (2, 3, 4) ∧
      1 < exGradAcc.deltas.length) ∧
      (gradLayerStep recNet recSt 0 1 exGradAcc).deltas.getD 1 [] = [[1]] :=
  ⟨⟨by decide, by decide, by decide⟩,
   (C4_recurrent_gradient recNet recSt 0 1 exGradAcc 2 3 4 (by decide)
     (by decide) (by decide)).1.trans (by with_unfolding_all decide)⟩

/-- C5 witness: the `(s, l) = (0, 1)` step of the backward sweep on `recNet`
with `damping = 1`; the stored `R_delta` evaluates to `[[1]]`. -/
theorem C5_witness :
    (1 < exRBwdAcc.Rdeltas.length) ∧
      (GLayerStep recNet recSt exRF 1 0 1 exRBwdAcc).Rdeltas.getD 1 [] = [[1]] :=
  ⟨by decide,
   (C5_structural_damping recNet recSt exRF 1 0 1 exRBwdAcc
     (by decide)).1.trans (by with_unfolding_all decide)⟩

end HRNN
